import Mathlib

/-!
Verification of the tabular data-cleaning core of `datafile-cleaner`
(`src/app/page.tsx`, function `cleanData`).

The core receives two parsed tables (a data file and a template file), each
carrying an optional `headers : string[]` and an optional `data : any[][]`
(row 0 of `data` is the header row, and `headers === data[0]` as produced by
`parseFile`), plus a record of boolean cleaning options.  It aligns columns by
header name, projects rows, optionally removes duplicate and empty rows, and
applies per-cell text transforms.

Cell values coming out of the parsers are JS scalars.  We model them with
`Cell` below: strings, integer numbers, booleans and `null` (which also stands
for `undefined` / a missing array slot).  JS string functions are modelled on
the character sets actually exercised here: `trim` strips the ASCII whitespace
recognised by `Char.isWhitespace`, and `toUpperCase` / `toLowerCase` agree
with `String.toUpper` / `String.toLower` on ASCII letters.
-/

/-- A JS scalar cell value as produced by the CSV/XLSX parsers.
`null` models both `null` and `undefined`. -/
inductive Cell where
  | str : String → Cell
  | num : Int → Cell
  | bool : Bool → Cell
  | null : Cell
deriving Repr, DecidableEq

/-- JS truthiness of a cell value: `""`, `0`, `false`, `null`/`undefined`
are falsy, everything else is truthy. -/
def Cell.truthy : Cell → Bool
  | .str s => !(s == "")
  | .num n => !(n == 0)
  | .bool b => b
  | .null => false

/-- JS `cell?.toString() || ''`: string coercion with empty string for
`null`/`undefined`.  JS renders integers in decimal and booleans as
`"true"`/`"false"`, as `toString` does here. -/
def Cell.toStringJs : Cell → String
  | .str s => s
  | .num n => toString n
  | .bool b => if b then "true" else "false"
  | .null => ""

/-- The ten boolean cleaning options (`cleaningOptions` state in
`page.tsx`), all defaulting to off. -/
structure CleaningOptions where
  removeDuplicates : Bool := false
  removeEmptyRows : Bool := false
  removeEmptyColumns : Bool := false
  trimWhitespace : Bool := false
  normalizeText : Bool := false
  removeSpecialCharacters : Bool := false
  standardizeDates : Bool := false
  convertToUppercase : Bool := false
  convertToLowercase : Bool := false
  removeLeadingZeros : Bool := false
deriving Repr, DecidableEq

/-- The result record returned by `cleanData`.  `totalRowsCleaned` and
`columnsDeleted` are JS numbers computed by subtraction and can be
negative, so they live in `Int`. -/
structure CleaningResult where
  totalRowsCleaned : Int
  columnsDeleted : Int
  duplicateRowsRemoved : Nat
  cleanedData : List (List Cell)
deriving Repr, DecidableEq

/-- JS `Array.prototype.indexOf`: index of the first element equal to
`target` (`===` on strings is structural equality), or `none`. -/
def jsIndexOf (l : List String) (target : String) : Option Nat :=
  match l with
  | [] => none
  | a :: rest =>
      if a == target then some 0 else (jsIndexOf rest target).map (· + 1)

/-- Step 1 of `cleanData`: the `forEach` over `templateHeaders` pushing
`(dataIndex, templateHeader)` into the parallel arrays `columnsToKeep`
and `keptHeaders` whenever `dataHeaders.indexOf(templateHeader) !== -1`. -/
def alignColumns (templateHeaders dataHeaders : List String) :
    List (Nat × String) :=
  templateHeaders.filterMap (fun th =>
    (jsIndexOf dataHeaders th).map (fun i => (i, th)))

/-- The `columnsToKeep` array of `cleanData`. -/
def columnsToKeep (templateHeaders dataHeaders : List String) : List Nat :=
  (alignColumns templateHeaders dataHeaders).map Prod.fst

/-- The `keptHeaders` array of `cleanData`. -/
def keptHeaders (templateHeaders dataHeaders : List String) : List String :=
  (alignColumns templateHeaders dataHeaders).map Prod.snd

/-- Projection `row[colIndex] || ''`: the cell at `i`, with every falsy value —
including a present `0`, `false`, `null` or `""`, and an out-of-range
index — replaced by the empty string. -/
def jsIndexOr (row : List Cell) (i : Nat) : Cell :=
  match row.get? i with
  | some c => if c.truthy then c else Cell.str ""
  | none => Cell.str ""

/-- Step 2 of `cleanData`: `columnsToKeep.map(colIndex => row[colIndex] || '')`. -/
def projRow (cols : List Nat) (row : List Cell) : List Cell :=
  cols.map (fun i => jsIndexOr row i)

/-- The duplicate-removal loop of `cleanData`: fold over the rows keeping
a `uniqueRows` array, a `seenRows` set of `JSON.stringify(row)` keys and
the `duplicateRowsRemoved` counter.  `JSON.stringify` is injective on
lists of `Cell` values (strings are quoted and escaped, numbers, booleans
and `null` keep their distinct literal forms), so the key set is modelled
as a list of rows compared structurally. -/
def dedupJS {α : Type} [DecidableEq α] (rows : List α) : List α × Nat :=
  let st := rows.foldl
    (fun (acc : List α × List α × Nat) row =>
      if row ∈ acc.2.1 then (acc.1, acc.2.1, acc.2.2 + 1)
      else (acc.1 ++ [row], row :: acc.2.1, acc.2.2))
    ([], [], 0)
  (st.1, st.2.2)

/-- JS `String.prototype.trim`: drop leading and trailing whitespace
(modelled on the ASCII whitespace recognised by `Char.isWhitespace`). -/
def jsTrim (s : String) : String :=
  String.mk
    (((s.data.dropWhile Char.isWhitespace).reverse.dropWhile
        Char.isWhitespace).reverse)

/-- JS `String.prototype.toUpperCase`, character by character (agrees
with JS on ASCII). -/
def jsToUpper (s : String) : String := String.mk (s.data.map Char.toUpper)

/-- JS `String.prototype.toLowerCase`, character by character (agrees
with JS on ASCII). -/
def jsToLower (s : String) : String := String.mk (s.data.map Char.toLower)

/-- The empty-row predicate of `cleanData`:
`row.some(cell => cell && cell.toString().trim() !== '')`. -/
def keepRow (row : List Cell) : Bool :=
  row.any (fun cell => cell.truthy && !(jsTrim cell.toStringJs == ""))

/-- The JS regular-expression test `/^0+\d/.test s`: some run of `k ≥ 1`
leading `'0'` characters is followed by a digit (the regex engine may
backtrack the greedy `0+`, so any such `k` makes the test succeed). -/
def lzTestL (cs : List Char) : Bool :=
  (List.range cs.length).any (fun k =>
    decide (1 ≤ k) && (cs.take k).all (fun c => c == '0') &&
      (cs.getD k ' ').isDigit)

/-- Test `/^0+\d/` on a string. -/
def lzTest (s : String) : Bool := lzTestL s.data

/-- JS `cellValue.replace(/^0+/, '')`: strip the maximal leading run of `'0'`. -/
def stripLeadingZeros (s : String) : String :=
  String.mk (s.data.dropWhile (fun c => c == '0'))

/-- Regex `/[^a-zA-Z0-9\s]/g` removal: keep only ASCII letters, digits and
whitespace. -/
def removeSpecials (s : String) : String :=
  String.mk (s.data.filter (fun c => c.isAlphanum || c.isWhitespace))

/-- The per-cell transform body of `cleanData` step 3: coerce to string,
then (in this order) trim, case conversion (`if … else if`, so uppercase
wins when both are set), special-character removal, leading-zero removal. -/
def transformCell (o : CleaningOptions) (cell : Cell) : Cell :=
  let v0 := cell.toStringJs
  let v1 := if o.trimWhitespace then jsTrim v0 else v0
  let v2 :=
    if o.convertToUppercase then jsToUpper v1
    else if o.convertToLowercase then jsToLower v1
    else v1
  let v3 := if o.removeSpecialCharacters then removeSpecials v2 else v2
  let v4 :=
    if o.removeLeadingZeros && lzTest v3 then stripLeadingZeros v3 else v3
  Cell.str v4

/-- Whether the text-transform stage runs at all:
`options.trimWhitespace || options.convertToUppercase || …`. -/
def anyTextOption (o : CleaningOptions) : Bool :=
  o.trimWhitespace || o.convertToUppercase || o.convertToLowercase ||
    o.removeSpecialCharacters || o.removeLeadingZeros

/-- The body of the `cleanedData.length > 1` block of `cleanData`, applied
to `dataRows` (the projected table minus its header row): deduplication,
empty-row removal and text transforms in this order, returning the final
data rows together with the `duplicateRowsRemoved` counter. -/
def cleanRows (o : CleaningOptions) (rows0 : List (List Cell)) :
    List (List Cell) × Nat :=
  let dd := if o.removeDuplicates then dedupJS rows0 else (rows0, 0)
  let rows2 := if o.removeEmptyRows then dd.1.filter keepRow else dd.1
  let rows3 :=
    if anyTextOption o then rows2.map (fun r => r.map (transformCell o))
    else rows2
  (rows3, dd.2)

/-- The core of `cleanData` after the null guard: column alignment,
projection, the `cleanedData.length > 1` option block, and result
assembly. -/
def cleanCore (dataHeaders : List String) (originalData : List (List Cell))
    (templateHeaders : List String) (o : CleaningOptions) : CleaningResult :=
  let cols := columnsToKeep templateHeaders dataHeaders
  let kept := keptHeaders templateHeaders dataHeaders
  let filteredData := originalData.map (projRow cols)
  let step :=
    if 1 < filteredData.length then
      let res := cleanRows o (filteredData.drop 1)
      (filteredData.headD [] :: res.1, res.2)
    else (filteredData, 0)
  { totalRowsCleaned := (step.1.length : Int) - 1
    columnsDeleted := (dataHeaders.length : Int) - (kept.length : Int)
    duplicateRowsRemoved := step.2
    cleanedData := step.1 }

/-- The slice of `UploadedFile` that `cleanData` reads.  A missing
(`undefined`) field is `none`; a present array — even an empty one — is
truthy in JS, hence `some`. -/
structure UploadedFile where
  headers : Option (List String) := none
  data : Option (List (List Cell)) := none

/-- Function `cleanData` itself: the guard
`if (!dataFile.data || !templateFile.data || !dataFile.headers || !templateFile.headers) throw`
followed by the core.  Only the presence of `templateFile.data` is used. -/
def cleanData (dataFile templateFile : UploadedFile) (o : CleaningOptions) :
    Except String CleaningResult :=
  match dataFile.data, templateFile.data, dataFile.headers,
      templateFile.headers with
  | some dd, some _, some dh, some th => Except.ok (cleanCore dh dd th o)
  | _, _, _, _ => Except.error "File data is not available"

/-- The projection composite (steps 1–2 of `cleanData`) as a table-level
operation: the kept header names together with every row of the original
data (header row included) projected onto the kept column indices. -/
def projectTable (dataHeaders : List String)
    (originalData : List (List Cell)) (templateHeaders : List String) :
    List String × List (List Cell) :=
  (keptHeaders templateHeaders dataHeaders,
   originalData.map (projRow (columnsToKeep templateHeaders dataHeaders)))

/-- Spec-side first-occurrence deduplication, written as direct recursion:
keep the head, delete its later duplicates, recurse. -/
def dedupFirst {α : Type} [DecidableEq α] : List α → List α
  | [] => []
  | r :: rs => r :: dedupFirst (rs.filter (fun x => !(x == r)))
  termination_by l => l.length
  decreasing_by
    simp only [List.length_cons]
    exact Nat.lt_succ_of_le (List.length_filter_le _ _)

/-- Spec-side first-occurrence deduplication relative to a set of keys
already seen: drop a row if its key was seen, otherwise keep it and
remember it. -/
def dedupFrom {α : Type} [DecidableEq α] (seen : List α) :
    List α → List α
  | [] => []
  | r :: rs =>
      if r ∈ seen then dedupFrom seen rs
      else r :: dedupFrom (r :: seen) rs

/-- Spec-side characterisation of the strings accepted by `/^0+\d/`: the
first character is `'0'` and the second character is a digit (a longer
zero run only ever releases another `'0'`, itself a digit, to the `\d`). -/
def lzMatches (s : String) : Bool :=
  match s.data with
  | c0 :: c1 :: _ => c0 == '0' && c1.isDigit
  | _ => false

/-- An option record with remove-duplicates forced on and every per-cell
text transform forced off; the other flags are taken from `o`. -/
def withDedupNoTransforms (o : CleaningOptions) : CleaningOptions :=
  { o with
    removeDuplicates := true
    trimWhitespace := false
    convertToUppercase := false
    convertToLowercase := false
    removeSpecialCharacters := false
    removeLeadingZeros := false }

/-- An option record with remove-empty-rows forced on, and
remove-duplicates and every per-cell text transform forced off; the other
flags are taken from `o`. -/
def withEmptyRowsNoTransforms (o : CleaningOptions) : CleaningOptions :=
  { o with
    removeDuplicates := false
    removeEmptyRows := true
    trimWhitespace := false
    convertToUppercase := false
    convertToLowercase := false
    removeSpecialCharacters := false
    removeLeadingZeros := false }

/-! ### Basic lemmas about column alignment -/

theorem jsIndexOf_isSome_iff (l : List String) (t : String) :
    (jsIndexOf l t).isSome ↔ t ∈ l := by
  induction l with
  | nil => simp [jsIndexOf]
  | cons a rest ih =>
      simp only [jsIndexOf]
      by_cases h : a == t
      · simp [h, eq_comm.mp (beq_iff_eq.mp h)]
      · have hne : ¬ t = a := fun he => by simp [he] at h
        simp [h, List.mem_cons, hne, ih]

theorem jsIndexOf_get {l : List String} {t : String} {i : Nat}
    (h : jsIndexOf l t = some i) : l.get? i = some t := by
  induction l generalizing i with
  | nil => simp [jsIndexOf] at h
  | cons a rest ih =>
      by_cases hb : a == t
      · rw [jsIndexOf, if_pos hb] at h
        cases h
        simp [beq_iff_eq.mp hb]
      · rw [jsIndexOf, if_neg hb, Option.map_eq_some'] at h
        obtain ⟨j, hj, rfl⟩ := h
        simpa using ih hj

theorem alignColumns_pair {t d : List String} {p : Nat × String}
    (hp : p ∈ alignColumns t d) : jsIndexOf d p.2 = some p.1 := by
  induction t with
  | nil => simp [alignColumns] at hp
  | cons a rest ih =>
      simp only [alignColumns, List.filterMap_cons] at hp
      cases hc : jsIndexOf d a with
      | none => rw [hc] at hp; exact ih hp
      | some i =>
          rw [hc] at hp
          simp only [Option.map_some', List.mem_cons] at hp
          rcases hp with rfl | hp
          · exact hc
          · exact ih hp

theorem keptHeaders_eq_filter (t d : List String) :
    keptHeaders t d = t.filter (fun h => decide (h ∈ d)) := by
  induction t with
  | nil => rfl
  | cons a rest ih =>
      simp only [keptHeaders, alignColumns, List.filterMap_cons] at ih ⊢
      cases hc : jsIndexOf d a with
      | none =>
          have : ¬ a ∈ d := by
            rw [← jsIndexOf_isSome_iff, hc]; simp
          simp [List.filter_cons, this, ih]
      | some i =>
          have : a ∈ d := by rw [← jsIndexOf_isSome_iff, hc]; simp
          simp [List.filter_cons, this, ih]

theorem projRow_header (t d : List String) :
    projRow (columnsToKeep t d) (d.map Cell.str) =
      (t.filter (fun h => decide (h ∈ d))).map Cell.str := by
  induction t with
  | nil => rfl
  | cons a rest ih =>
      simp only [columnsToKeep, alignColumns, List.filterMap_cons] at ih ⊢
      cases hc : jsIndexOf d a with
      | none =>
          have : ¬ a ∈ d := by
            rw [← jsIndexOf_isSome_iff, hc]; simp
          simp [List.filter_cons, this, ih]
      | some i =>
          have hmem : a ∈ d := by rw [← jsIndexOf_isSome_iff, hc]; simp
          have hget : (d.map Cell.str).get? i = some (Cell.str a) := by
            rw [List.get?_map, jsIndexOf_get hc]; rfl
          have hcell : jsIndexOr (d.map Cell.str) i = Cell.str a := by
            rw [jsIndexOr, hget]
            by_cases ha : a = ""
            · simp [ha, Cell.truthy]
            · simp [Cell.truthy, ha]
          simp [List.filter_cons, hmem, projRow, List.map_cons, hcell,
            ← ih, projRow]

theorem cleanCore_head (dh : List String) (od : List (List Cell))
    (th : List String) (o : CleaningOptions) :
    (cleanCore dh od th o).cleanedData.head? =
      (od.map (projRow (columnsToKeep th dh))).head? := by
  cases od with
  | nil => simp [cleanCore]
  | cons r rs =>
      simp only [cleanCore, List.map_cons]
      split <;> simp

/-- C1: for every data table (whose row 0 is its header row) and every
template table, the header row of the cleaned table is the subsequence of
the template's header names that also occur in the data header, in
template order, whatever the options. -/
theorem C1_header_row_template_order (dh : List String)
    (rows : List (List Cell)) (th : List String) (o : CleaningOptions) :
    (cleanCore dh (dh.map Cell.str :: rows) th o).cleanedData.head? =
      some ((th.filter (fun h => decide (h ∈ dh))).map Cell.str) := by
  rw [cleanCore_head, List.map_cons, List.head?_cons, projRow_header]

theorem columnsDeleted_eq (dh : List String) (od : List (List Cell))
    (th : List String) (o : CleaningOptions) :
    (cleanCore dh od th o).columnsDeleted =
      (dh.length : Int) - ((keptHeaders th dh).length : Int) := by
  simp [cleanCore]

/-- C4 (counterexample): with data headers `["A","A"]` and template
`["A"]`, the code's `columnsDeleted` is `1` while "distinct data headers
minus kept headers" is `0`; and with data headers `["A"]` and template
`["A","A"]`, `columnsDeleted` is `-1 < 0`. -/
theorem C4_counterexample :
    (cleanCore ["A", "A"] [[Cell.str "A", Cell.str "A"]] ["A"]
        {}).columnsDeleted ≠
      ((["A", "A"] : List String).dedup.length : Int) -
        ((keptHeaders ["A"] ["A", "A"]).length : Int) ∧
    (cleanCore ["A"] [[Cell.str "A"]] ["A", "A"] {}).columnsDeleted < 0 := by
  constructor
  · decide
  · decide

/-- C4 (amended): `columnsDeleted` equals the number of data headers
counted with multiplicity minus the number of template headers that occur
in the data header (also with multiplicity); it is not in general
non-negative. -/
theorem C4_columnsDeleted_amended (dh : List String) (od : List (List Cell))
    (th : List String) (o : CleaningOptions) :
    (cleanCore dh od th o).columnsDeleted =
      (dh.length : Int) -
        ((th.filter (fun h => decide (h ∈ dh))).length : Int) := by
  rw [columnsDeleted_eq, keptHeaders_eq_filter]

/-! ### Deduplication lemmas -/

theorem dedupFrom_length_le {α : Type} [DecidableEq α] (seen rows : List α) :
    (dedupFrom seen rows).length ≤ rows.length := by
  induction rows generalizing seen with
  | nil => simp [dedupFrom]
  | cons r rs ih =>
      rw [dedupFrom]
      by_cases hr : r ∈ seen
      · rw [if_pos hr]
        exact le_trans (ih seen) (Nat.le_succ _)
      · rw [if_neg hr]
        simpa using Nat.succ_le_succ (ih (r :: seen))

theorem mem_dedupFrom {α : Type} [DecidableEq α] {seen rows : List α}
    {x : α} : x ∈ dedupFrom seen rows ↔ x ∈ rows ∧ x ∉ seen := by
  induction rows generalizing seen with
  | nil => simp [dedupFrom]
  | cons r rs ih =>
      rw [dedupFrom]
      by_cases hr : r ∈ seen
      · rw [if_pos hr, ih]
        constructor
        · rintro ⟨hx, hs⟩
          exact ⟨List.mem_cons_of_mem _ hx, hs⟩
        · rintro ⟨hx, hs⟩
          rcases List.mem_cons.mp hx with rfl | hx
          · exact absurd hr hs
          · exact ⟨hx, hs⟩
      · rw [if_neg hr]
        simp only [List.mem_cons, ih]
        constructor
        · rintro (rfl | ⟨hx, hs⟩)
          · exact ⟨Or.inl rfl, hr⟩
          · exact ⟨Or.inr hx, fun hmem => hs (Or.inr hmem)⟩
        · rintro ⟨rfl | hx, hs⟩
          · exact Or.inl rfl
          · by_cases hxr : x = r
            · exact Or.inl hxr
            · exact Or.inr ⟨hx, by simp [List.mem_cons, hxr, hs]⟩

theorem dedupFrom_nodup {α : Type} [DecidableEq α] (seen rows : List α) :
    (dedupFrom seen rows).Nodup := by
  induction rows generalizing seen with
  | nil => simp [dedupFrom]
  | cons r rs ih =>
      rw [dedupFrom]
      by_cases hr : r ∈ seen
      · rw [if_pos hr]; exact ih seen
      · rw [if_neg hr]
        refine List.nodup_cons.mpr ⟨fun hmem => ?_, ih (r :: seen)⟩
        exact (mem_dedupFrom.mp hmem).2 (List.mem_cons_self _ _)

theorem dedupFrom_nil_length {α : Type} [DecidableEq α] (rows : List α) :
    (dedupFrom [] rows).length = rows.toFinset.card := by
  have hnd : (dedupFrom [] rows).Nodup := dedupFrom_nodup [] rows
  have hfin : (dedupFrom [] rows).toFinset = rows.toFinset := by
    ext x
    simp [List.mem_toFinset, mem_dedupFrom]
  rw [← List.toFinset_card_of_nodup hnd, hfin]

theorem dedupJS_go {α : Type} [DecidableEq α] (rows : List α) :
    ∀ (uniq seen : List α) (cnt : Nat),
      rows.foldl
        (fun (acc : List α × List α × Nat) row =>
          if row ∈ acc.2.1 then (acc.1, acc.2.1, acc.2.2 + 1)
          else (acc.1 ++ [row], row :: acc.2.1, acc.2.2))
        (uniq, seen, cnt) =
      (uniq ++ dedupFrom seen rows,
       (dedupFrom seen rows).reverse ++ seen,
       cnt + (rows.length - (dedupFrom seen rows).length)) := by
  induction rows with
  | nil => intro uniq seen cnt; simp [dedupFrom]
  | cons r rs ih =>
      intro uniq seen cnt
      simp only [List.foldl_cons]
      by_cases hr : r ∈ seen
      · rw [if_pos hr, ih, dedupFrom, if_pos hr]
        have hle : (dedupFrom seen rs).length ≤ rs.length :=
          dedupFrom_length_le seen rs
        simp only [List.length_cons, Prod.mk.injEq, true_and]
        omega
      · rw [if_neg hr, ih, dedupFrom, if_neg hr]
        simp [Nat.succ_sub_succ]

theorem dedupJS_eq {α : Type} [DecidableEq α] (rows : List α) :
    dedupJS rows =
      (dedupFrom [] rows,
       rows.length - (dedupFrom [] rows).length) := by
  unfold dedupJS
  rw [dedupJS_go]
  simp

theorem dedupFrom_eq_dedupFirst {α : Type} [DecidableEq α]
    (seen rows : List α) :
    dedupFrom seen rows =
      dedupFirst (rows.filter (fun x => !(decide (x ∈ seen)))) := by
  induction rows generalizing seen with
  | nil => simp [dedupFrom, dedupFirst]
  | cons r rs ih =>
      rw [dedupFrom]
      by_cases hr : r ∈ seen
      · rw [if_pos hr, List.filter_cons]
        simp only [hr, decide_True, Bool.not_true, Bool.false_eq_true,
          if_false]
        exact ih seen
      · rw [if_neg hr, List.filter_cons]
        simp only [hr, decide_False, Bool.not_false, if_true]
        rw [dedupFirst, ih (r :: seen)]
        refine congrArg (fun l => r :: dedupFirst l) ?_
        rw [List.filter_filter]
        refine List.filter_congr ?_
        intro x _
        by_cases hxr : x = r
        · simp [hxr, hr, List.mem_cons]
        · simp [List.mem_cons, hxr]

/-! ### Shape lemmas for the core -/

theorem cleanCore_cleanedData (dh : List String) (od : List (List Cell))
    (th : List String) (o : CleaningOptions) :
    (cleanCore dh od th o).cleanedData =
      if 1 < od.length then
        (od.map (projRow (columnsToKeep th dh))).headD [] ::
          (cleanRows o ((od.map (projRow (columnsToKeep th dh))).drop 1)).1
      else od.map (projRow (columnsToKeep th dh)) := by
  simp only [cleanCore, List.length_map]
  split <;> simp

theorem cleanCore_dups (dh : List String) (od : List (List Cell))
    (th : List String) (o : CleaningOptions) :
    (cleanCore dh od th o).duplicateRowsRemoved =
      if 1 < od.length then
        (cleanRows o ((od.map (projRow (columnsToKeep th dh))).drop 1)).2
      else 0 := by
  simp only [cleanCore, List.length_map]
  split <;> simp

theorem cleanRows_snd (o : CleaningOptions) (rows0 : List (List Cell)) :
    (cleanRows o rows0).2 =
      if o.removeDuplicates then
        rows0.length - (dedupFrom [] rows0).length
      else 0 := by
  simp only [cleanRows]
  by_cases hd : o.removeDuplicates
  · simp [hd, dedupJS_eq]
  · simp [hd]

theorem cleanRows_fst_nodup (o : CleaningOptions)
    (rows0 : List (List Cell)) (hdup : o.removeDuplicates = true)
    (hany : anyTextOption o = false) : (cleanRows o rows0).1.Nodup := by
  simp only [cleanRows, hdup, if_true, hany, Bool.false_eq_true, if_false,
    dedupJS_eq]
  by_cases he : o.removeEmptyRows
  · simp only [he, if_true]
    exact (dedupFrom_nodup [] rows0).filter _
  · simp only [he, Bool.false_eq_true, if_false]
    exact dedupFrom_nodup [] rows0

/-! ### C2: deduplication -/

/-- C2 (counterexample): with remove-duplicates and
remove-special-characters both enabled, the rows `["a!"]` and `["a"]`
have distinct keys at the dedup stage but the later transform maps both
to `["a"]`, so the output data rows contain two identical rows — the
claim's "no two data rows of the output have identical cell sequences"
fails. -/
theorem C2_counterexample :
    ¬ ((cleanCore ["A"] [[Cell.str "A"], [Cell.str "a!"], [Cell.str "a"]]
          ["A"]
          { removeDuplicates := true
            removeSpecialCharacters := true }).cleanedData.drop 1).Nodup := by
  decide

/-- C2 (amended): with remove-duplicates enabled and no per-cell text
transform enabled, no two data rows of the output are identical;
`duplicateRowsRemoved` equals the number of projected input data rows
minus the number of distinct projected rows; and the dedup stage keeps
exactly the first occurrence of each row key, walking rows in original
order, comparing projected (pre-transform) values. -/
theorem C2_dedup_amended (dh : List String) (od : List (List Cell))
    (th : List String) (o : CleaningOptions) :
    ((cleanCore dh od th
        (withDedupNoTransforms o)).cleanedData.drop 1).Nodup ∧
    (cleanCore dh od th (withDedupNoTransforms o)).duplicateRowsRemoved =
      ((od.drop 1).map (projRow (columnsToKeep th dh))).length -
        ((od.drop 1).map (projRow (columnsToKeep th dh))).toFinset.card ∧
    ∀ rows : List (List Cell), (dedupJS rows).1 = dedupFirst rows := by
  set oc : CleaningOptions := withDedupNoTransforms o with hoc
  have hdup : oc.removeDuplicates = true := rfl
  have hany : anyTextOption oc = false := rfl
  refine ⟨?_, ?_, ?_⟩
  · rw [cleanCore_cleanedData]
    by_cases hlen : 1 < od.length
    · rw [if_pos hlen]
      simpa using cleanRows_fst_nodup oc _ hdup hany
    · rw [if_neg hlen]
      have hnil : (od.map (projRow (columnsToKeep th dh))).drop 1 = [] := by
        apply List.drop_eq_nil_of_le
        simpa using Nat.le_of_not_lt hlen
      rw [hnil]
      exact List.nodup_nil
  · rw [cleanCore_dups]
    by_cases hlen : 1 < od.length
    · rw [if_pos hlen, cleanRows_snd, if_pos hdup]
      have hdrop : (od.map (projRow (columnsToKeep th dh))).drop 1 =
          (od.drop 1).map (projRow (columnsToKeep th dh)) := by
        rw [List.map_drop]
      rw [hdrop, dedupFrom_nil_length]
    · rw [if_neg hlen]
      have h1 : od.drop 1 = [] :=
        List.drop_eq_nil_of_le (Nat.le_of_not_lt hlen)
      rw [h1]
      simp
  · intro rows
    have hfilter :
        rows.filter (fun x => !(decide (x ∈ ([] : List (List Cell))))) =
          rows := by
      apply List.filter_eq_self.mpr
      intro x _
      simp
    rw [dedupJS_eq]
    show dedupFrom [] rows = dedupFirst rows
    rw [dedupFrom_eq_dedupFirst, hfilter]

/-! ### C5: the missing-data guard -/

/-- C5: the clean operation raises its error exactly when one of the
two files lacks its header list or its data list; for every other input
it returns a full `CleaningResult`. -/
theorem C5_missing_data_error (dataFile templateFile : UploadedFile)
    (o : CleaningOptions) :
    ((∃ e, cleanData dataFile templateFile o = Except.error e) ↔
      (dataFile.data = none ∨ templateFile.data = none ∨
        dataFile.headers = none ∨ templateFile.headers = none)) ∧
    ((∃ r, cleanData dataFile templateFile o = Except.ok r) ↔
      ¬ (dataFile.data = none ∨ templateFile.data = none ∨
        dataFile.headers = none ∨ templateFile.headers = none)) := by
  obtain ⟨hs, ds⟩ := dataFile
  obtain ⟨ht, dt⟩ := templateFile
  cases hs <;> cases ds <;> cases ht <;> cases dt <;> simp [cleanData]

/-! ### C6: uppercase precedence and transform order -/

theorem transformCell_both_cases (o : CleaningOptions) (c : Cell) :
    transformCell
        { o with
          convertToUppercase := true
          convertToLowercase := true } c =
      transformCell
        { o with
          convertToUppercase := true
          convertToLowercase := false } c := rfl

/-- C6: enabling both case conversions gives the same cleaning result
as uppercase alone (uppercase wins, lowercase is skipped), for every
input and any other options; and the per-cell transforms apply in the
fixed order trim, case, special-characters, leading-zeros — in
particular `"  bob "` with trim and uppercase becomes `"BOB"`, and
`"0!7"` with special-character and leading-zero removal becomes `"7"`
(special-character removal runs first, exposing the zero run). -/
theorem C6_uppercase_precedence (dh : List String) (od : List (List Cell))
    (th : List String) (o : CleaningOptions) :
    cleanCore dh od th
        { o with
          convertToUppercase := true
          convertToLowercase := true } =
      cleanCore dh od th
        { o with
          convertToUppercase := true
          convertToLowercase := false } ∧
    transformCell
        { trimWhitespace := true
          convertToUppercase := true } (Cell.str "  bob ") =
      Cell.str "BOB" ∧
    transformCell
        { removeSpecialCharacters := true
          removeLeadingZeros := true } (Cell.str "0!7") = Cell.str "7" := by
  refine ⟨?_, by decide, by decide⟩
  have htc :
      transformCell
          { o with
            convertToUppercase := true
            convertToLowercase := true } =
        transformCell
          { o with
            convertToUppercase := true
            convertToLowercase := false } :=
    funext (transformCell_both_cases o)
  simp [cleanCore, cleanRows, anyTextOption, htc]

/-! ### C3: the leading-zero regex -/

theorem lzTestL_cons_cons (c : Char) (rest : List Char) :
    lzTestL ('0' :: c :: rest) = c.isDigit := by
  by_cases hd : c.isDigit = true
  · rw [hd, lzTestL, List.any_eq_true]
    refine ⟨1, by simp, by simp [hd]⟩
  · have hc0 : ¬ c = '0' := fun h => hd (by rw [h]; decide)
    rw [show c.isDigit = false from Bool.not_eq_true _ |>.mp hd]
    rw [lzTestL, Bool.eq_false_iff]
    intro hany
    obtain ⟨k, hkmem, hpred⟩ := List.any_eq_true.mp hany
    obtain _ | _ | k := k
    · simp at hpred
    · simp only [List.take, List.all_cons, List.all_nil, List.getD_cons_succ,
        List.getD_cons_zero, Bool.and_true, Bool.and_eq_true] at hpred
      exact hd hpred.2
    · simp [hc0, List.take] at hpred

theorem lzTest_eq_lzMatches (s : String) : lzTest s = lzMatches s := by
  obtain ⟨cs⟩ := s
  show lzTestL cs =
    (match cs with
    | c0 :: c1 :: _ => c0 == '0' && c1.isDigit
    | _ => false)
  match cs with
  | [] => rfl
  | [c] => rfl
  | c0 :: c1 :: rest =>
      by_cases h0 : c0 = '0'
      · subst h0
        rw [lzTestL_cons_cons]
        simp
      · have hbeq : (c0 == '0') = false := by simp [h0]
        have hlhs : lzTestL (c0 :: c1 :: rest) = false := by
          rw [lzTestL, Bool.eq_false_iff]
          intro hany
          obtain ⟨k, hkmem, hpred⟩ := List.any_eq_true.mp hany
          obtain _ | k := k
          · simp at hpred
          · simp [List.take, hbeq] at hpred
        rw [hlhs]
        simp [hbeq]

/-- C3 (counterexample): with remove-leading-zeros enabled the code
maps the cell `"00"` to `""`, not to `"00"`: `/^0+\d/` backtracks its
greedy zero run, matching one `'0'` followed by the digit `'0'`, and the
replacement then strips the whole run. -/
theorem C3_counterexample :
    transformCell { removeLeadingZeros := true } (Cell.str "00") =
        Cell.str "" ∧
      Cell.str "" ≠ Cell.str "00" := by
  exact ⟨by decide, by decide⟩

/-- C3 (amended): with remove-leading-zeros enabled, a cell is
rewritten exactly when its first character is `'0'` and its second
character is a digit (this is what `/^0+\d/` accepts, the zero run
backtracking if needed), in which case the maximal leading run of zeros
is stripped; every other cell is unchanged.  In particular `"007" → "7"`,
`"0" → "0"`, `"0a1" → "0a1"`, but `"00" → ""`. -/
theorem C3_leading_zeros_amended (s : String) :
    transformCell { removeLeadingZeros := true } (Cell.str s) =
      Cell.str (if lzMatches s then stripLeadingZeros s else s) ∧
    transformCell { removeLeadingZeros := true } (Cell.str "007") =
      Cell.str "7" ∧
    transformCell { removeLeadingZeros := true } (Cell.str "0") =
      Cell.str "0" ∧
    transformCell { removeLeadingZeros := true } (Cell.str "00") =
      Cell.str "" ∧
    transformCell { removeLeadingZeros := true } (Cell.str "0a1") =
      Cell.str "0a1" := by
  refine ⟨?_, by decide, by decide, by decide, by decide⟩
  show Cell.str (if true && lzTest s then stripLeadingZeros s else s) = _
  rw [Bool.true_and, lzTest_eq_lzMatches]

/-! ### C7: empty-row removal -/

theorem jsIndexOr_truthy_or_empty (row : List Cell) (i : Nat) :
    (jsIndexOr row i).truthy = true ∨ jsIndexOr row i = Cell.str "" := by
  unfold jsIndexOr
  split
  · next c hc =>
      by_cases htc : c.truthy = true
      · rw [if_pos htc]
        exact Or.inl htc
      · rw [if_neg htc]
        exact Or.inr rfl
  · exact Or.inr rfl

theorem keepRow_eq_any_nonempty (cells : List Cell)
    (h : ∀ c ∈ cells, c.truthy = true ∨ c = Cell.str "") :
    keepRow cells =
      cells.any (fun c => !(jsTrim c.toStringJs == "")) := by
  induction cells with
  | nil => rfl
  | cons c cs ih =>
      have htail := ih (fun x hx => h x (List.mem_cons_of_mem _ hx))
      show ((c.truthy && !(jsTrim c.toStringJs == "")) || keepRow cs) =
        ((!(jsTrim c.toStringJs == "")) ||
          cs.any (fun x => !(jsTrim x.toStringJs == "")))
      rw [htail]
      rcases h c (List.mem_cons_self _ _) with hc | hc
      · rw [hc, Bool.true_and]
      · rw [hc]
        have h1 : ((Cell.str "").truthy &&
            !(jsTrim (Cell.str "").toStringJs == "")) = false := by decide
        have h2 : (!(jsTrim (Cell.str "").toStringJs == "")) = false := by
          decide
        rw [h1, h2]

theorem keepRow_projRow (cols : List Nat) (row : List Cell) :
    keepRow (projRow cols row) =
      (projRow cols row).any (fun c => !(jsTrim c.toStringJs == "")) := by
  apply keepRow_eq_any_nonempty
  intro c hc
  obtain ⟨i, _, rfl⟩ := List.mem_map.mp hc
  exact jsIndexOr_truthy_or_empty row i

/-- C7 (counterexample): with remove-empty-rows and
remove-special-characters both enabled, the row `["!"]` is retained by
the empty-row filter (its cell is non-empty at that stage) and only then
transformed into `[""]`, so the output contains a data row all of whose
cells are empty after coercion and trim. -/
theorem C7_counterexample :
    ¬ (∀ r ∈ (cleanCore ["A"] [[Cell.str "A"], [Cell.str "!"]] ["A"]
          { removeEmptyRows := true
            removeSpecialCharacters := true }).cleanedData.drop 1,
        ∃ c ∈ r, ¬ jsTrim c.toStringJs = "") := by
  decide

/-- C7 (amended): with remove-empty-rows enabled and remove-duplicates
and all per-cell text transforms disabled, the output data rows are
exactly the projected input data rows that have at least one cell whose
string coercion is non-empty after whitespace trim, in order; in
particular every retained output row has such a cell. -/
theorem C7_empty_rows_amended (dh : List String) (od : List (List Cell))
    (th : List String) (o : CleaningOptions) :
    (cleanCore dh od th (withEmptyRowsNoTransforms o)).cleanedData.drop 1 =
      ((od.drop 1).map (projRow (columnsToKeep th dh))).filter
        (fun r => r.any (fun c => !(jsTrim c.toStringJs == ""))) ∧
    ∀ r ∈ (cleanCore dh od th
        (withEmptyRowsNoTransforms o)).cleanedData.drop 1,
      ∃ c ∈ r, ¬ jsTrim c.toStringJs = "" := by
  have hmain :
      (cleanCore dh od th
          (withEmptyRowsNoTransforms o)).cleanedData.drop 1 =
        ((od.drop 1).map (projRow (columnsToKeep th dh))).filter
          (fun r => r.any (fun c => !(jsTrim c.toStringJs == ""))) := by
    rw [cleanCore_cleanedData]
    by_cases hlen : 1 < od.length
    · rw [if_pos hlen]
      have hdrop1 : (od.map (projRow (columnsToKeep th dh))).drop 1 =
          (od.drop 1).map (projRow (columnsToKeep th dh)) := by
        rw [List.map_drop]
      show (cleanRows (withEmptyRowsNoTransforms o)
          ((od.map (projRow (columnsToKeep th dh))).drop 1)).1 = _
      rw [hdrop1]
      show ((od.drop 1).map (projRow (columnsToKeep th dh))).filter
          keepRow = _
      apply List.filter_congr
      intro r hr
      obtain ⟨row, _, rfl⟩ := List.mem_map.mp hr
      exact keepRow_projRow _ row
    · rw [if_neg hlen]
      have h1 : od.drop 1 = [] :=
        List.drop_eq_nil_of_le (Nat.le_of_not_lt hlen)
      have h2 : (od.map (projRow (columnsToKeep th dh))).drop 1 = [] := by
        apply List.drop_eq_nil_of_le
        simpa using Nat.le_of_not_lt hlen
      rw [h1, h2]
      rfl
  refine ⟨hmain, ?_⟩
  rw [hmain]
  intro r hr
  have hpred := (List.mem_filter.mp hr).2
  obtain ⟨c, hcmem, hc⟩ := List.any_eq_true.mp hpred
  refine ⟨c, hcmem, ?_⟩
  intro he
  rw [he] at hc
  simp at hc

/-- Witness for C7: a concrete retained row with a non-empty cell,
obtained by applying the amended theorem. -/
theorem C7_witness :
    [Cell.str "x"] ∈ (cleanCore ["A"] [[Cell.str "A"], [Cell.str "x"]]
        ["A"] (withEmptyRowsNoTransforms {})).cleanedData.drop 1 ∧
    ∃ c ∈ [Cell.str "x"], ¬ jsTrim c.toStringJs = "" :=
  ⟨by decide,
   (C7_empty_rows_amended ["A"] [[Cell.str "A"], [Cell.str "x"]] ["A"]
      {}).2 [Cell.str "x"] (by decide)⟩

/-! ### C9: falsy cells in projection -/

/-- C9: during projection every present falsy cell — the number `0`,
`false`, `null`, or the empty string — is replaced by the empty string,
not only cells missing at the selected position; consequently a numeric
`0` cell never survives projection even with all options off, and a row
with a `0` cell and a row missing that cell produce identical
deduplication keys (one duplicate is counted). -/
theorem C9_falsy_replaced :
    (∀ (row : List Cell) (i : Nat) (c : Cell), row.get? i = some c →
        c.truthy = false → jsIndexOr row i = Cell.str "") ∧
    (cleanCore ["A"] [[Cell.str "A"], [Cell.num 0]] ["A"] {}).cleanedData =
      [[Cell.str "A"], [Cell.str ""]] ∧
    (cleanCore ["A"] [[Cell.str "A"], [Cell.num 0], []] ["A"]
        { removeDuplicates := true }).duplicateRowsRemoved = 1 := by
  refine ⟨?_, by decide, by decide⟩
  intro row i c hget hfalsy
  unfold jsIndexOr
  rw [hget]
  simp [hfalsy]

/-- Witness for C9: the present cell `0` at position 0 is falsy and gets
replaced by the empty string. -/
theorem C9_witness :
    ([Cell.num 0].get? 0 = some (Cell.num 0)) ∧
    ((Cell.num 0).truthy = false) ∧
    jsIndexOr [Cell.num 0] 0 = Cell.str "" :=
  ⟨rfl, rfl, C9_falsy_replaced.1 [Cell.num 0] 0 (Cell.num 0) rfl rfl⟩

/-! ### C10: tables with fewer than two rows -/

/-- C10: when the projected table has fewer than two rows, every
option stage is skipped — the cleaned table is exactly the projected
table and `duplicateRowsRemoved` is `0` regardless of the options; and a
present-but-empty data list raises no error and yields
`totalRowsCleaned = -1`. -/
theorem C10_small_table_skips_options :
    (∀ (dh : List String) (od : List (List Cell)) (th : List String)
        (o : CleaningOptions), od.length < 2 →
      (cleanCore dh od th o).cleanedData =
          od.map (projRow (columnsToKeep th dh)) ∧
        (cleanCore dh od th o).duplicateRowsRemoved = 0) ∧
    (∀ (dh th : List String) (td : List (List Cell)) (o : CleaningOptions),
      cleanData ⟨some dh, some []⟩ ⟨some th, some td⟩ o =
          Except.ok (cleanCore dh [] th o) ∧
        (cleanCore dh [] th o).totalRowsCleaned = -1) := by
  constructor
  · intro dh od th o hlen
    have hnot : ¬ 1 < od.length := by omega
    constructor
    · rw [cleanCore_cleanedData, if_neg hnot]
    · rw [cleanCore_dups, if_neg hnot]
  · intro dh th td o
    exact ⟨rfl, rfl⟩

/-- Witness for C10: a one-row table with several options enabled still
reports zero removed duplicates. -/
theorem C10_witness :
    (([[Cell.str "A"]] : List (List Cell)).length < 2) ∧
    (cleanCore ["A"] [[Cell.str "A"]] ["A"]
        { removeDuplicates := true
          removeEmptyRows := true
          trimWhitespace := true }).duplicateRowsRemoved = 0 :=
  ⟨by decide,
   (C10_small_table_skips_options.1 ["A"] [[Cell.str "A"]] ["A"] _
      (by decide)).2⟩

/-! ### C8: idempotence of projection -/

theorem mem_keptHeaders {t d : List String} {h : String} :
    h ∈ keptHeaders t d ↔ h ∈ t ∧ h ∈ d := by
  rw [keptHeaders_eq_filter, List.mem_filter]
  simp

theorem keptHeaders_idem (t d : List String) :
    keptHeaders t (keptHeaders t d) = keptHeaders t d := by
  rw [keptHeaders_eq_filter t (keptHeaders t d), keptHeaders_eq_filter t d]
  apply List.filter_congr
  intro h hmem
  apply decide_eq_decide.mpr
  rw [List.mem_filter]
  simp [hmem]

theorem projRow_eq_align (t d : List String) (row : List Cell) :
    projRow (columnsToKeep t d) row =
      (alignColumns t d).map (fun p => jsIndexOr row p.1) := by
  rw [projRow, columnsToKeep, List.map_map]
  rfl

theorem jsIndexOr_self (c : Cell)
    (h : c.truthy = true ∨ c = Cell.str "") :
    (if c.truthy then c else Cell.str "") = c := by
  rcases h with h | h
  · rw [if_pos h]
  · rw [h]
    decide

theorem jsIndexOr_projRow (t d : List String) (row : List Cell)
    {a : String} {i j : Nat} (hd : jsIndexOf d a = some i)
    (hk : jsIndexOf (keptHeaders t d) a = some j) :
    jsIndexOr (projRow (columnsToKeep t d) row) j = jsIndexOr row i := by
  have hkkj : (keptHeaders t d).get? j = some a := jsIndexOf_get hk
  rw [keptHeaders, List.get?_map] at hkkj
  obtain ⟨p, hp, hpa⟩ := Option.map_eq_some'.mp hkkj
  have hpmem : p ∈ alignColumns t d := List.get?_mem hp
  have hpd : jsIndexOf d p.2 = some p.1 := alignColumns_pair hpmem
  rw [hpa, hd] at hpd
  have hp1 : p.1 = i := (Option.some.inj hpd).symm
  have hget : (projRow (columnsToKeep t d) row).get? j =
      some (jsIndexOr row i) := by
    rw [projRow_eq_align, List.get?_map, hp, Option.map_some', hp1]
  unfold jsIndexOr
  rw [hget]
  exact jsIndexOr_self _ (jsIndexOr_truthy_or_empty row i)

theorem projRow_idem_aux (t d : List String) (row : List Cell)
    (t' : List String) (hsub : ∀ h ∈ t', h ∈ t) :
    (alignColumns t' (keptHeaders t d)).map
        (fun p => jsIndexOr (projRow (columnsToKeep t d) row) p.1) =
      (alignColumns t' d).map (fun p => jsIndexOr row p.1) := by
  induction t' with
  | nil => rfl
  | cons a t'' ih =>
      have hat : a ∈ t := hsub a (List.mem_cons_self _ _)
      have htail : ∀ h ∈ t'', h ∈ t :=
        fun h hm => hsub h (List.mem_cons_of_mem _ hm)
      simp only [alignColumns, List.filterMap_cons] at ih ⊢
      cases hcase : jsIndexOf d a with
      | none =>
          have had : ¬ a ∈ d := by
            rw [← jsIndexOf_isSome_iff, hcase]
            simp
          have hak : ¬ a ∈ keptHeaders t d :=
            fun hk => had (mem_keptHeaders.mp hk).2
          have hknone : jsIndexOf (keptHeaders t d) a = none := by
            cases hk : jsIndexOf (keptHeaders t d) a with
            | none => rfl
            | some j =>
                exact absurd (jsIndexOf_isSome_iff _ _ |>.mp
                  (by rw [hk]; rfl)) hak
          rw [hknone]
          simp only [Option.map_none']
          exact ih htail
      | some i =>
          have had : a ∈ d := by
            rw [← jsIndexOf_isSome_iff, hcase]
            rfl
          have hak : a ∈ keptHeaders t d := mem_keptHeaders.mpr ⟨hat, had⟩
          obtain ⟨j, hj⟩ := Option.isSome_iff_exists.mp
            ((jsIndexOf_isSome_iff _ _).mpr hak)
          rw [hj]
          simp only [Option.map_some', List.map_cons]
          refine congrArg₂ List.cons ?_ (ih htail)
          exact jsIndexOr_projRow t d row hcase hj

theorem projRow_idem (t d : List String) (row : List Cell) :
    projRow (columnsToKeep t (keptHeaders t d))
        (projRow (columnsToKeep t d) row) =
      projRow (columnsToKeep t d) row := by
  have h := projRow_idem_aux t d row t (fun x hx => hx)
  rw [projRow_eq_align t d row] at h
  rw [projRow_eq_align t (keptHeaders t d), projRow_eq_align t d]
  exact h

/-- C8: column alignment and projection are idempotent — projecting
the data table against the template and then projecting the resulting
table against the same template yields the same table (kept headers and
all projected rows, header row included) as projecting once. -/
theorem C8_projection_idempotent (dh : List String)
    (od : List (List Cell)) (th : List String) :
    projectTable (projectTable dh od th).1 (projectTable dh od th).2 th =
      projectTable dh od th := by
  unfold projectTable
  simp only [Prod.mk.injEq]
  constructor
  · exact keptHeaders_idem th dh
  · induction od with
    | nil => rfl
    | cons r rs ih =>
        simp only [List.map_cons] at ih ⊢
        exact congrArg₂ List.cons (projRow_idem th dh r) ih
